import Mathlib

/-!
Verification of the rpncalc repository (emdash/rpncalc).

The development shallowly embeds the most advanced evolutionary variant of
the source (the variant of `calc.js` whose stack values are tagged unions
and whose operator dispatch goes through the polymorphic `dispatch` table,
together with the matching variant of `rat.js` and `fp.js`, and the unit
system of the dimensional-analysis module).

JavaScript numbers are modelled as exact rationals (ℚ); machine integers
stored in `num`/`denom` fields are modelled as ℤ.  Fallible JS code (code
that can throw) is modelled with `Option`, `none` standing for a thrown
exception.
-/

namespace Rpncalc

/-! ## JavaScript primitives -/

/-- JS `1 << e`: the shift count is the operand converted to Uint32 and
masked to its low five bits, and the result is a signed 32-bit integer
(so a shift count of 31 yields `-2^31`).  Used by `fromFloat`. -/
def jsShl1 (e : Int) : Int :=
  let c : Nat := (e.emod 32).toNat
  if c = 31 then -(2 ^ 31) else 2 ^ c

/-- Fueled worker for `split2`: each step halves the argument, so fuel
equal to the argument always suffices (structural recursion keeps the
definition kernel-computable). -/
def split2Aux : Nat → Nat → Nat × Nat
  | 0, n => (0, n)
  | fuel + 1, n =>
    if n = 0 ∨ n % 2 = 1 then (0, n)
    else
      let p := split2Aux fuel (n / 2)
      (p.1 + 1, p.2)

/-- Split a positive natural into `(t, m)` with `n = 2^t * m` and `m` odd
(for `n = 0` returns `(0, 0)`).  Helper used to express the result of the
source's `normalize` loop on exact rational values of doubles. -/
def split2 (n : Nat) : Nat × Nat := split2Aux n n

/-- Number of decimal digits of a natural number as JS prints it
(`(0).toString()` is `"0"`, one digit). -/
def numDigits (n : Nat) : Nat :=
  if h : n < 10 then 1
  else
    have : n / 10 < n := Nat.div_lt_self (by omega) (by omega)
    numDigits (n / 10) + 1
termination_by n

/-! ## `rat.js`: rationals as raw `\x7bnum, denom\x7d` pairs

The embedded variant is the one whose arithmetic constructors go through
`cons`/`assertInt` and do not auto-simplify. -/

/-- The source's `type Rat = \x7bnum: int, denom: int\x7d`. -/
structure RatPair where
  num : Int
  denom : Int
deriving DecidableEq, Repr

/-- Exact rational value of a pair (the mathematical reading used to state
value-preservation properties; division by a zero `denom` gives the junk
value 0 of ℚ division). -/
def ratQ (r : RatPair) : ℚ := (r.num : ℚ) / (r.denom : ℚ)

/-- Source `gcd = (a, b) => (b === 0) ? Math.abs(a) : gcd(b, a % b)` from the
source, on the natural numbers it is actually applied to. -/
def gcdJS (a b : Nat) : Nat :=
  if h : b = 0 then a
  else
    have : a % b < b := Nat.mod_lt a (Nat.pos_of_ne_zero h)
    gcdJS b (a % b)
termination_by b

/-- Source `simplify(\x7bnum, denom\x7d)`: divide both components by
`gcd(|num|, |denom|)`.  When both components are zero the gcd is zero and
the JS division produces `NaN`, which `assertInt` (inside `cons`) rejects
by throwing; this is the `none` case. -/
def simplifyJS (r : RatPair) : Option RatPair :=
  let g : Int := (gcdJS r.num.natAbs r.denom.natAbs : Int)
  if g = 0 then none else some ⟨r.num / g, r.denom / g⟩

/-- Source `add = (a, b) => cons(a.num * b.denom + b.num * a.denom, a.denom * b.denom)`. -/
def ratAdd (a b : RatPair) : RatPair :=
  ⟨a.num * b.denom + b.num * a.denom, a.denom * b.denom⟩

/-- Source `sub = (a, b) => cons(a.num * b.denom - b.num * a.denom, a.denom * b.denom)`. -/
def ratSub (a b : RatPair) : RatPair :=
  ⟨a.num * b.denom - b.num * a.denom, a.denom * b.denom⟩

/-- Source `mul = (a, b) => cons(a.num * b.num, a.denom * b.denom)`. -/
def ratMul (a b : RatPair) : RatPair :=
  ⟨a.num * b.num, a.denom * b.denom⟩

/-- Source `inv = (\x7bnum, denom\x7d) => cons(denom, num)`.  Note: no zero check;
inverting a zero-valued rational silently returns a pair with zero `denom`. -/
def ratInv (r : RatPair) : RatPair := ⟨r.denom, r.num⟩

/-- Source `div = (a, b) => mul(a, inv(b))`. -/
def ratDiv (a b : RatPair) : RatPair := ratMul a (ratInv b)

/-- Source `neg = (\x7bnum, denom\x7d) => cons(-num, denom)`. -/
def ratNeg (r : RatPair) : RatPair := ⟨-r.num, r.denom⟩

/-- Source `abs = (\x7bnum, denom\x7d) => cons(Math.abs(num), denom)`. -/
def ratAbs (r : RatPair) : RatPair := ⟨(r.num.natAbs : Int), r.denom⟩

/-- Source `floor = (\x7bnum, denom\x7d) => cons(Math.floor(num / denom), 1)`.
With `denom = 0` the JS division yields `±Infinity`/`NaN`, which
`assertInt` rejects (throw → `none`). -/
def ratFloor (r : RatPair) : Option RatPair :=
  if r.denom = 0 then none
  else some ⟨⌊(r.num : ℚ) / (r.denom : ℚ)⌋, 1⟩

/-- Source `ceil = (\x7bvalue, denom\x7d) => cons(Math.ceil(num / denom), 1)`:
the parameter destructures a nonexistent `value` field and the body then
reads the *undeclared* variable `num`, so every call throws a
`ReferenceError`.  Model: always `none`. -/
def ratCeil (_ : RatPair) : Option RatPair := none

/-- Source `lt = (a, b) => a.num * b.denom < b.num * a.denom`. -/
def ratLt (a b : RatPair) : Bool := a.num * b.denom < b.num * a.denom

/-- Source `gt = (a, b) => a.num * b.denom > b.num * a.denom`. -/
def ratGt (a b : RatPair) : Bool := a.num * b.denom > b.num * a.denom

/-- Source `gte = (a, b) => a.num * b.denom >= b.num * a.denom`. -/
def ratGte (a b : RatPair) : Bool := a.num * b.denom ≥ b.num * a.denom

/-- Source `toFloat(value)`: `simplify` and then perform the JS division
`num / denom`.  The division is modelled exactly in ℚ; every use in the
theorems below is at points where the JS double division is itself exact. -/
def toFloatJS (r : RatPair) : Option ℚ :=
  (simplifyJS r).map fun s => (s.num : ℚ) / (s.denom : ℚ)

/-- Source `fromProper(\x7binteger, num, denom\x7d) = cons(integer * denom + num, denom)`. -/
def fromProperJS (integer num denom : Int) : RatPair :=
  ⟨integer * denom + num, denom⟩

/-! ## `rat.js`: bit-level doubles, `frexp` and `fromFloat`

The source extracts exponent and mantissa from the raw little-endian bytes
of an IEEE-754 binary64 value.  A finite double is modelled by its fields:
sign bit, 11-bit biased exponent field, 52-bit mantissa field. -/

/-- A 64-bit IEEE-754 value, by bit fields.  `expField < 2047` means the
value is finite. -/
structure Float64 where
  sign : Bool
  expField : Nat
  mantField : Nat
deriving DecidableEq, Repr

/-- The real value denoted by a finite double (normal, subnormal or zero). -/
def Float64.val (f : Float64) : ℚ :=
  (if f.sign then -1 else 1) *
    (if f.expField = 0 then ((f.mantField : ℚ) / 2 ^ 52) * (2 ^ 1022)⁻¹
     else (1 + (f.mantField : ℚ) / 2 ^ 52) * 2 ^ (f.expField : ℤ) / 2 ^ 1023)

/-- The byte manipulation inside `frexp` before the `normalize` loop:
the exponent is the biased exponent field minus `0x3ff`, and the mantissa
is the sign times the double whose bytes keep the original 52 mantissa
bits but whose exponent field is forced to `0x3ff` (value `1 + mant/2^52`). -/
def frexpRaw (f : Float64) : Int × ℚ :=
  ((f.expField : Int) - 1023,
   (if f.sign then -1 else 1) * (1 + (f.mantField : ℚ) / 2 ^ 52))

/-- The source's `normalize(exponent, mantissa)`: while the mantissa is not
an integer, double it and decrement the exponent.  The recursion is given
explicit fuel; for every mantissa produced by `frexpRaw` the denominator
divides `2^52`, so 53 units of fuel always suffice and `none` is never
reached from `frexpJS`. -/
def normalizeJS : Nat → Int → ℚ → Option (Int × ℚ)
  | 0, _, _ => none
  | fuel + 1, e, m => if m.den = 1 then some (e, m) else normalizeJS fuel (e - 1) (m * 2)

/-- Source `frexp(x)`: raw byte extraction followed by `normalize`. -/
def frexpJS (f : Float64) : Option (Int × ℚ) :=
  normalizeJS 64 (frexpRaw f).1 (frexpRaw f).2

/-- Source `fromFloat(value)` (bit-level): reject non-finite input, `frexp`, then
- exponent ≥ 0: `cons(mantissa * (1 << exponent), 1)` — note the 32-bit JS
  shift `1 << exponent`;
- exponent < 0: `simplify(cons(mantissa, 2 ** -exponent))`, where
  `2 ** k` overflows to `Infinity` for `k ≥ 1024` and `assertInt` then
  throws (the `none` case). -/
def fromFloatBits (f : Float64) : Option RatPair :=
  if f.expField = 2047 then none
  else
    (frexpJS f).bind fun em =>
      if 0 ≤ em.1 then
        let prod : ℚ := em.2 * (jsShl1 em.1 : Int)
        if prod.den = 1 then some ⟨prod.num, 1⟩ else none
      else
        if em.2.den = 1 ∧ -em.1 ≤ 1023 then
          simplifyJS ⟨em.2.num, 2 ^ (-em.1).toNat⟩
        else none

/-! ## `fromFloat` on exact values

The calculator layer stores its "float" payloads as exact rationals.
`ratFromFloatQ` is `fromFloat` re-expressed on the exact value of the
input double: for a non-zero value `x = m * 2^e` with `m` odd, the
`frexp`/`normalize` pair of the source produces exactly the decomposition
`(e, m)` whenever `x` is the value of a normal double, and `frexp(0)`
produces `(-1023, 1)`.  Values whose reduced denominator is not a power
of two are not values of doubles at all and are mapped to `none`
(unreachable from the embedded calculator). -/

/-- Source `fromFloat` on the exact rational value of a double (see above). -/
def ratFromFloatQ (x : ℚ) : Option RatPair :=
  if x = 0 then simplifyJS ⟨1, 2 ^ 1023⟩
  else
    let dsp := split2 x.den
    if dsp.2 ≠ 1 then none
    else if dsp.1 = 0 then
      let nsp := split2 x.num.natAbs
      let m : Int := if x.num < 0 then -(nsp.2 : Int) else (nsp.2 : Int)
      some ⟨m * jsShl1 (nsp.1 : Int), 1⟩
    else
      if dsp.1 ≤ 1023 then simplifyJS ⟨x.num, 2 ^ dsp.1⟩ else none

/-! ## `calc.js`: tagged values and the polymorphic dispatch table -/

/-- A JS number as a value: a finite double (exact model ℚ) or one of
the non-finite doubles `Infinity`, `-Infinity`, `NaN`, which JS
arithmetic returns as ordinary values (it never throws).  The exact
model does not distinguish `-0` from `0`. -/
inductive JSNum where
  | fin (x : ℚ)
  | posInf
  | negInf
  | nan
deriving DecidableEq, Repr

/-- JS `x + y` on doubles (non-finite operands follow IEEE-754:
opposite infinities give `NaN`, `NaN` propagates). -/
def jsAdd : JSNum → JSNum → JSNum
  | .nan, _ => .nan
  | _, .nan => .nan
  | .fin x, .fin y => .fin (x + y)
  | .posInf, .negInf => .nan
  | .negInf, .posInf => .nan
  | .posInf, _ => .posInf
  | .fin _, .posInf => .posInf
  | .negInf, _ => .negInf
  | .fin _, .negInf => .negInf

/-- JS `-x` on doubles. -/
def jsNeg : JSNum → JSNum
  | .fin x => .fin (-x)
  | .posInf => .negInf
  | .negInf => .posInf
  | .nan => .nan

/-- JS `x - y` on doubles. -/
def jsSub : JSNum → JSNum → JSNum
  | .nan, _ => .nan
  | _, .nan => .nan
  | .fin x, .fin y => .fin (x - y)
  | .posInf, .posInf => .nan
  | .negInf, .negInf => .nan
  | .posInf, _ => .posInf
  | .negInf, _ => .negInf
  | .fin _, .posInf => .negInf
  | .fin _, .negInf => .posInf

/-- JS `x * y` on doubles (`Infinity * 0` is `NaN`, otherwise signed
infinities). -/
def jsMul : JSNum → JSNum → JSNum
  | .nan, _ => .nan
  | _, .nan => .nan
  | .fin x, .fin y => .fin (x * y)
  | .posInf, .posInf => .posInf
  | .posInf, .negInf => .negInf
  | .negInf, .posInf => .negInf
  | .negInf, .negInf => .posInf
  | .posInf, .fin y => if y = 0 then .nan else if y < 0 then .negInf else .posInf
  | .fin x, .posInf => if x = 0 then .nan else if x < 0 then .negInf else .posInf
  | .negInf, .fin y => if y = 0 then .nan else if y < 0 then .posInf else .negInf
  | .fin x, .negInf => if x = 0 then .nan else if x < 0 then .posInf else .negInf

/-- JS `x / y` on doubles: division by zero yields a signed infinity
(`0 / 0` yields `NaN`) *as a value* — it does not throw.  A finite value
divided by an infinity is (a signed) zero. -/
def jsDiv : JSNum → JSNum → JSNum
  | .nan, _ => .nan
  | _, .nan => .nan
  | .fin x, .fin y =>
    if y = 0 then (if x = 0 then .nan else if x < 0 then .negInf else .posInf)
    else .fin (x / y)
  | .fin _, .posInf => .fin 0
  | .fin _, .negInf => .fin 0
  | .posInf, .fin y => if y < 0 then .negInf else .posInf
  | .negInf, .fin y => if y < 0 then .posInf else .negInf
  | .posInf, .posInf => .nan
  | .posInf, .negInf => .nan
  | .negInf, .posInf => .nan
  | .negInf, .negInf => .nan

/-- JS `Math.abs(x)` on doubles. -/
def jsAbs : JSNum → JSNum
  | .fin x => .fin |x|
  | .posInf => .posInf
  | .negInf => .posInf
  | .nan => .nan

/-- Payload of a tagged stack value: a JS number, a rational object, or
an identifier string. -/
inductive PVal where
  | num (x : JSNum)
  | rp (r : RatPair)
  | str (s : String)
deriving DecidableEq, Repr

/-- `rat.fromFloat` applied to a JS number: a non-finite argument fails
the `isFinite`/`isNaN` guard and throws (`none`); a finite argument
converts exactly (see `ratFromFloatQ`). -/
def jsFromFloat : JSNum → Option RatPair
  | .fin x => ratFromFloatQ x
  | _ => none

/-- The JS division `num / denom` performed by `toFloat` after
`simplify`, on the extended double domain (a zero denominator yields a
signed infinity, not an error). -/
def jsToFloat (r : RatPair) : Option JSNum :=
  (simplifyJS r).map fun s => jsDiv (.fin (s.num : ℚ)) (.fin (s.denom : ℚ))

/-- The source's tagged union `\x7btag, value\x7d` built by
`tag = (tag, value) => (\x7btag, value\x7d)`. -/
structure TVal where
  tag : String
  value : PVal
deriving DecidableEq, Repr

/-- A JS expression slot that may hold `undefined` (`none`). -/
abbrev JSVal : Type := Option TVal

/-- Implementations stored in the dispatch table: applied to the list of
operand payloads, `none` when the JS function would throw. -/
abbrev DispatchImpl : Type := List PVal → Option PVal

/-- One dispatch-table entry `[[name, [argTags]], [retTag, func]]`. -/
abbrev DispatchEntry : Type := (String × List String) × (String × DispatchImpl)

/-- Source `poly_unop(name, primF, ratF)`: the operator over each of
float and rat. -/
def polyUnop (name : String) (primF : JSNum → Option JSNum)
    (ratF : RatPair → Option RatPair) : List DispatchEntry :=
  [((name, ["float"]), ("float", fun args =>
      match args with
      | [.num x] => (primF x).map .num
      | _ => none)),
   ((name, ["rat"]), ("rat", fun args =>
      match args with
      | [.rp r] => (ratF r).map .rp
      | _ => none))]

/-- Source `poly_binop(name, primF, ratF)`: the operator over the cross product
of float and rat; mixed signatures promote the float operand with
`rat.fromFloat` and use the rational implementation; `[float, float]`
yields a float from `primF`, any signature containing rat yields rat. -/
def polyBinop (name : String) (primF : JSNum → JSNum → Option JSNum)
    (ratF : RatPair → RatPair → Option RatPair) : List DispatchEntry :=
  [((name, ["float", "float"]), ("float", fun args =>
      match args with
      | [.num x, .num y] => (primF x y).map .num
      | _ => none)),
   ((name, ["float", "rat"]), ("rat", fun args =>
      match args with
      | [.num x, .rp y] => (jsFromFloat x).bind fun fx => (ratF fx y).map .rp
      | _ => none)),
   ((name, ["rat", "float"]), ("rat", fun args =>
      match args with
      | [.rp x, .num y] => (jsFromFloat y).bind fun fy => (ratF x fy).map .rp
      | _ => none)),
   ((name, ["rat", "rat"]), ("rat", fun args =>
      match args with
      | [.rp x, .rp y] => (ratF x y).map .rp
      | _ => none))]

/-- Source `divisor(d)`: the `f\x7bd\x7d` operator dividing by the constant `d`.
The float entry is `x => rat.div(rat.fromFloat(x), denom)`; the rat entry
stores the *binary* `rat.div` which dispatch then calls with a single
argument, so its second operand is `undefined` and `inv(undefined)`
throws on destructuring (hence `none`). -/
def divisorEntries (d : Int) : List DispatchEntry :=
  [(("f" ++ toString d, ["float"]), ("rat", fun args =>
      match args with
      | [.num x] => (jsFromFloat x).map fun fx => .rp (ratDiv fx ⟨d, 1⟩)
      | _ => none)),
   (("f" ++ toString d, ["rat"]), ("rat", fun _ => none))]

/-- Source `rat.approx` invoked through dispatch always throws: applied to two
plain numbers (the `[float, float]` entry) it destructures `\x7bnum,
denom\x7d` from a number and `assertInt(undefined)` throws; applied with a
rational second operand it fails the `typeof denom !== "number"` integer
check.  Model: `none` on every input. -/
def approxImpl : RatPair → RatPair → Option RatPair := fun _ _ => none

/-- The dispatch table (the entries of the exact-arithmetic fragment).
The `poly_math`/`poly_binmath` families (`acos` … `cbrt`, `log`, `pow`)
and `random`/`trunc`/`sign` wrap JS `Math` transcendentals whose values
are not exactly representable; no claim under verification mentions them,
so those entries are not embedded.  The float implementations operate on
the extended double domain `JSNum`, so division by zero produces the
float `Infinity`/`NaN` as a value, exactly as in JS — never an error. -/
def dispatchJS : List DispatchEntry :=
  polyUnop "abs" (fun x => some (jsAbs x)) (fun r => some (ratAbs r)) ++
  polyUnop "inv" (fun x => some (jsDiv (.fin 1) x))
    (fun r => some (ratInv r)) ++
  polyUnop "neg" (fun x => some (jsNeg x)) (fun r => some (ratNeg r)) ++
  polyUnop "square" (fun x => some (jsMul x x)) (fun r => some (ratMul r r)) ++
  polyBinop "add" (fun x y => some (jsAdd x y)) (fun a b => some (ratAdd a b)) ++
  polyBinop "sub" (fun x y => some (jsSub x y)) (fun a b => some (ratSub a b)) ++
  polyBinop "mul" (fun x y => some (jsMul x y)) (fun a b => some (ratMul a b)) ++
  polyBinop "div" (fun x y => some (jsDiv x y))
    (fun a b => some (ratDiv a b)) ++
  polyBinop "approx" (fun _ _ => none) approxImpl ++
  divisorEntries 2 ++ divisorEntries 4 ++ divisorEntries 8 ++ divisorEntries 16 ++
  [(("float", ["rat"]), ("float", fun args =>
      match args with
      | [.rp r] => (jsToFloat r).map .num
      | _ => none)),
   (("frac", ["float"]), ("rat", fun args =>
      match args with
      | [.num x] => (jsFromFloat x).map .rp
      | _ => none))]

/-- Source `dispatch.get([name, tags])` (keys compared structurally, as the
JSON-stringified keys are in the source). -/
def lookupD (name : String) (tags : List String) :
    Option (String × DispatchImpl) :=
  (dispatchJS.find? fun e => decide (e.1 = (name, tags))).map (·.2)

/-- The precomputed arity table: all signatures sharing a name must agree
on their argument count (`requireEqual`); a name absent from the table has
no arity. -/
def aritiesJS (name : String) : Option Nat :=
  match (dispatchJS.filter fun e => decide (e.1.1 = name)).map
      (fun e => e.1.2.length) with
  | [] => none
  | a :: rest => if rest.all (· = a) then some a else none

/-- JS `Array.prototype.slice(begin)` with a possibly negative index
(negative indices count from the end; `Int.toNat` clamps at zero). -/
def jsSliceFrom {α : Type} (l : List α) (p : Int) : List α :=
  l.drop (if p < 0 then ((l.length : Int) + p).toNat else p.toNat)

/-- JS `Array.prototype.slice(0, end)` with a possibly negative index. -/
def jsSliceTake {α : Type} (l : List α) (p : Int) : List α :=
  l.take (if p < 0 then ((l.length : Int) + p).toNat else p.toNat)

/-- Source `apply(stack, name)`: split off `arity` operands (`split`), read each
operand's tag and value (destructuring, which throws on an `undefined`
slot), look up `(name, tags)`, run the implementation and push its result
tagged with the declared return tag.  Any failure (unknown name, missing
signature, throwing implementation) is the thrown `not_implemented` /
propagated error, i.e. `none`. -/
def applyJS (stack : List JSVal) (name : String) : Option (List JSVal) :=
  match aritiesJS name with
  | none => none
  | some arity =>
    let pivot : Int := (stack.length : Int) - (arity : Int)
    let args := jsSliceFrom stack pivot
    let rest := jsSliceTake stack pivot
    (args.mapM id).bind fun argVals =>
      match lookupD name (argVals.map (·.tag)) with
      | some rf => (rf.2 (argVals.map (·.value))).map fun v =>
          rest ++ [some ⟨rf.1, v⟩]
      | none => none

/-! ## `calc.js`: the input accumulator -/

/-- Accumulator states: `empty | dec | float | var | num | denom`
(the `val` payloads of the source's tagged records). -/
inductive AccumState where
  | empty
  | dec (val : Nat)
  | flt (integer : Nat) (frac : Nat)
  | varS (val : String)
  | numS (integer : Nat) (num : Nat)
  | denomS (integer : Nat) (num : Nat) (denom : Nat)
deriving DecidableEq, Repr

/-- Source `isEmpty(state)`. -/
def isEmptyA : AccumState → Bool
  | .empty => true
  | _ => false

/-- Source `digit(state, d)` — total; `fold_digit` is `reg * 10 + d`. -/
def accumDigit : AccumState → Nat → AccumState
  | .empty, d => .dec d
  | .dec v, d => .dec (v * 10 + d)
  | .flt i f, d => .flt i (f * 10 + d)
  | .varS s, d => .varS (s ++ toString d)
  | .numS i n, d => .numS i (n * 10 + d)
  | .denomS i n de, d => .denomS i n (de * 10 + d)

/-- Source `decimal(state)`; from `float` the source throws (`underflow`), from
`var` it evaluates the undeclared name `decimal_in_word` (ReferenceError),
from `num`/`denom` it throws `decimal_in_frac`. -/
def accumDecimal : AccumState → Option AccumState
  | .empty => some (.flt 0 0)
  | .dec v => some (.flt v 0)
  | _ => none

/-- Source `num(state)`: legal from `empty` and `dec` only. -/
def accumNum : AccumState → Option AccumState
  | .empty => some (.numS 0 0)
  | .dec v => some (.numS v 0)
  | _ => none

/-- Source `denom(state)`: legal from `dec` and `num`; from `empty` it throws
`incomplete_frac`; from `var` it evaluates the undeclared name
`frac_in_letter`. -/
def accumDenom : AccumState → Option AccumState
  | .dec v => some (.denomS 0 v 0)
  | .numS i n => some (.denomS i n 0)
  | _ => none

/-- Source `letter(state, l)`: legal from `empty` and `var` only. -/
def accumLetter : AccumState → String → Option AccumState
  | .empty, l => some (.varS l)
  | .varS s, l => some (.varS (s ++ l))
  | _, _ => none

/-- Exact value of `parseFloat` applied to the string
`integer.frac` printed from the two digit registers (note the source loses
leading zeros of the fractional register: digits `0`, `5` give `frac = 5`
and hence the value `integer + 5/10`). -/
def parseFloatQ (integer frac : Nat) : ℚ :=
  (integer : ℚ) + (frac : ℚ) / 10 ^ numDigits frac

/-- Source `value(state)`: the finished tagged value; throws on `empty`
(`empty_accum`) and on `num` (`incomplete_frac`). -/
def accumValue : AccumState → Option TVal
  | .empty => none
  | .dec v => some ⟨"float", .num (.fin (v : ℚ))⟩
  | .flt i f => some ⟨"float", .num (.fin (parseFloatQ i f))⟩
  | .varS s => some ⟨"word", .str s⟩
  | .numS _ _ => none
  | .denomS i n d => some ⟨"rat", .rp (fromProperJS i n d)⟩

/-! ## `calc.js`: calculator state and actions -/

/-- One tape cell.  The source appends heterogeneous JS values: the
literal tagged value for a push, the operator-name string for an operator,
the string `"="` for a store, and the formatted string `exch(A, B)` (with
the already-resolved indices) for an exchange.  The four shapes are
mutually distinguishable in JS (object vs. string; no operator is named
`=` or has the `exch(…)` shape, and distinct index pairs format to
distinct strings), so the heterogeneous array is embedded as this sum. -/
inductive TapeEntry where
  | val (v : TVal)
  | op (name : String)
  | storeE
  | exchE (A B : Int)
deriving DecidableEq, Repr

/-- The calculator state of the embedded variant:
stack, tape, defs, accum, showing. -/
structure CalcState where
  stack : List JSVal
  tape : List TapeEntry
  defs : List (String × JSVal)
  accum : AccumState
  showing : String
deriving DecidableEq, Repr

/-- Exact value of the double `Math.E`. -/
def mathE : ℚ := (6121026514868073 : ℚ) / 2 ^ 51

/-- Exact value of the double `Math.PI`. -/
def mathPI : ℚ := (884279719003555 : ℚ) / 2 ^ 48

/-- Exact value of the double `Math.LOG2E`. -/
def mathLOG2E : ℚ := (3248660424278399 : ℚ) / 2 ^ 51

/-- Exact value of the double `Math.LOG10E`. -/
def mathLOG10E : ℚ := (3911776933737095 : ℚ) / 2 ^ 53

/-- Exact value of the double `Math.LN2`. -/
def mathLN2 : ℚ := (6243314768165359 : ℚ) / 2 ^ 53

/-- Exact value of the double `Math.LN10`. -/
def mathLN10 : ℚ := (2592480341699211 : ℚ) / 2 ^ 50

/-- Exact value of the double `Math.SQRT2`. -/
def mathSQRT2 : ℚ := (6369051672525773 : ℚ) / 2 ^ 52

/-- Exact value of the double `Math.SQRT1_2`. -/
def mathSQRT1_2 : ℚ := (6369051672525773 : ℚ) / 2 ^ 53

/-- The seeded `constants` table of the embedded variant (all values
tagged floats). -/
def constantsJS : List (String × JSVal) :=
  [("𝒆", some ⟨"float", .num (.fin mathE)⟩),
   ("𝜋", some ⟨"float", .num (.fin mathPI)⟩),
   ("LOG2E", some ⟨"float", .num (.fin mathLOG2E)⟩),
   ("LOG10E", some ⟨"float", .num (.fin mathLOG10E)⟩),
   ("LN2", some ⟨"float", .num (.fin mathLN2)⟩),
   ("LN10", some ⟨"float", .num (.fin mathLN10)⟩),
   ("SQRT2", some ⟨"float", .num (.fin mathSQRT2)⟩),
   ("SQRT1_2", some ⟨"float", .num (.fin mathSQRT1_2)⟩)]

/-- The calculator's `init` state. -/
def calcInit : CalcState := ⟨[], [], constantsJS, .empty, "basic"⟩

/-- JS `String(x)` for the values that reach property-key position here:
`undefined` prints as `undefined`, and every tagged value is a plain
object, printing as `[object Object]`. -/
def jsToStr : JSVal → String
  | none => "undefined"
  | some _ => "[object Object]"

/-- Read a property of the `defs` record: `some` if the key is present. -/
def recGet (defs : List (String × JSVal)) (k : String) : Option JSVal :=
  (defs.find? fun e => e.1 = k).map (·.2)

/-- JS property read `defs[k]`: an absent key reads as `undefined`. -/
def jsIndex (defs : List (String × JSVal)) (k : String) : JSVal :=
  (recGet defs k).getD none

/-- The spread-update `\x7b...defs, [k]: v\x7d`: an existing key keeps its
position with the new value, a new key is appended. -/
def recSet (defs : List (String × JSVal)) (k : String) (v : JSVal) :
    List (String × JSVal) :=
  if defs.any fun e => e.1 = k then
    defs.map fun e => if e.1 = k then (k, v) else e
  else defs ++ [(k, v)]

/-- Source `push(state, value)`: look up `state.defs[value]` — note the property
key is the tagged value *object itself*, which JS stringifies to
`[object Object]`, not the word's name — push the looked-up value if the
tag is `word` and the lookup is truthy, the literal value otherwise, and
append the literal value to the tape. -/
def pushNumeric (defs : List (String × JSVal)) (v : TVal) : JSVal :=
  let looked : JSVal := jsIndex defs (jsToStr (some v))
  if v.tag = "word" ∧ looked.isSome then looked else some v

/-- The stack-and-tape update of `push` (see `pushNumeric` for the
lookup). -/
def pushFn (s : CalcState) (v : TVal) : CalcState :=
  { s with stack := s.stack ++ [pushNumeric s.defs v],
           tape := s.tape ++ [.val v] }

/-- Source `enter()`: no-op on an empty accumulator; otherwise resolve the
accumulator's value (which may throw) and push it.  In the
`showing == "frac"` branch the float value is coerced with
`rat.fromFloat`, but the *cleared* accumulator is passed as a spurious
third argument to `push` and discarded, so the state keeps the old
non-empty accumulator; only the non-frac branch installs the cleared
accumulator. -/
def enterM (s : CalcState) : Option CalcState :=
  if isEmptyA s.accum then some s
  else
    (accumValue s.accum).bind fun v =>
      if s.showing = "frac" ∧ v.tag = "float" then
        match v.value with
        | .num jn => (jsFromFloat jn).map fun rp => pushFn s ⟨"rat", .rp rp⟩
        | _ => none
      else some { pushFn s v with accum := .empty }

/-- Source `operator(state, name)`: auto-enter, assert the accumulator is now
empty (the assert throws when the frac-mode `enter` failed to clear it),
apply the dispatch, append the operator name to the tape.  The dispatch
application is a parameter so that properties independent of the concrete
table hold for any of the evolutionary tables. -/
def operatorAct (applyFn : List JSVal → String → Option (List JSVal))
    (s : CalcState) (name : String) : Option CalcState :=
  (enterM s).bind fun t =>
    if isEmptyA t.accum then
      (applyFn t.stack name).map fun st =>
        { t with stack := st, tape := t.tape ++ [.op name] }
    else none

/-- Resolution of a possibly negative stack index: `i < 0 ? length + i : i`. -/
def resolveIdx (len : Nat) (i : Int) : Int :=
  if i < 0 then (len : Int) + i else i

/-- JS array read `l[i]`: out-of-range reads give `undefined`. -/
def jsGetElem (l : List JSVal) (i : Int) : JSVal :=
  if h : 0 ≤ i ∧ i.toNat < l.length then l.get ⟨i.toNat, h.2⟩ else none

/-- JS array write `l[i] = v` for `i ≥ 0`: in-range writes replace, a
write at or beyond the length extends the array (holes read back as
`undefined`).  Negative indices would create non-index properties; the
bounds checks of `exch` make that unreachable, and the list is returned
unchanged. -/
def jsSetElem (l : List JSVal) (i : Int) (v : JSVal) : List JSVal :=
  if i < 0 then l
  else if i.toNat < l.length then l.set i.toNat v
  else l ++ List.replicate (i.toNat - l.length) none ++ [v]

/-- Source `exch(state, a, b)`: auto-enter, resolve both indices, bounds-check
(an index strictly greater than the stack length throws `overflow`, a
negative resolved index throws `underflow` — an index *equal* to the
length passes), swap via two indexed writes, and append the formatted
`exch(A, B)` record to the tape. -/
def exchAct (s : CalcState) (a b : Int) : Option CalcState :=
  (enterM s).bind fun t =>
    let A := resolveIdx t.stack.length a
    let B := resolveIdx t.stack.length b
    if max A B > (t.stack.length : Int) then none
    else if min A B < 0 then none
    else
      let valA := jsGetElem t.stack A
      let valB := jsGetElem t.stack B
      let st1 := jsSetElem t.stack A valB
      let st2 := jsSetElem st1 B valA
      some { t with stack := st2, tape := t.tape ++ [.exchE A B] }

/-- Source `store(state)`: auto-enter; with at least two stack elements pop
`[value, slot]`, bind `defs[slot] = value` (the property key being the JS
stringification of the slot value) and append the `"="` marker to the
tape; otherwise return the entered state unchanged. -/
def storeAct (s : CalcState) : Option CalcState :=
  (enterM s).map fun t =>
    if 2 ≤ t.stack.length then
      let len : Int := t.stack.length
      let value := jsGetElem t.stack (len - 2)
      let slot := jsGetElem t.stack (len - 1)
      { t with stack := jsSliceTake t.stack (len - 2),
               defs := recSet t.defs (jsToStr slot) value,
               tape := t.tape ++ [.storeE] }
    else t

/-- The mutating actions of the calculator module (stack actions plus the
hoisted accumulator token methods and the `show` mode switch). -/
inductive CalcAct where
  | push (v : TVal)
  | enter
  | oper (name : String)
  | exch (a b : Int)
  | store
  | setShow (mode : String)
  | digit (d : Nat)
  | decimal
  | letterA (l : String)
  | numTok
  | denomTok
  | clearTok
deriving DecidableEq, Repr

/-- Lift an accumulator transition to the calculator (`hoist_methods`). -/
def hoistAccum (f : AccumState → Option AccumState) (s : CalcState) :
    Option CalcState :=
  (f s.accum).map fun a => { s with accum := a }

/-- Run one mutating action (`none` = the action threw). -/
def runAct (applyFn : List JSVal → String → Option (List JSVal)) :
    CalcAct → CalcState → Option CalcState
  | .push v, s => some (pushFn s v)
  | .enter, s => enterM s
  | .oper name, s => operatorAct applyFn s name
  | .exch a b, s => exchAct s a b
  | .store, s => storeAct s
  | .setShow m, s => some { s with showing := m }
  | .digit d, s => some { s with accum := accumDigit s.accum d }
  | .decimal, s => hoistAccum accumDecimal s
  | .letterA l, s => hoistAccum (fun a => accumLetter a l) s
  | .numTok, s => hoistAccum accumNum s
  | .denomTok, s => hoistAccum accumDenom s
  | .clearTok, s => some { s with accum := .empty }

/-- Run a sequence of mutating actions, failing if any action throws. -/
def runActs (applyFn : List JSVal → String → Option (List JSVal)) :
    List CalcAct → CalcState → Option CalcState
  | [], s => some s
  | a :: rest, s => (runAct applyFn a s).bind (runActs applyFn rest)

/-- Modelled from the spec: the repository contains no tape-replay
implementation (the spec states the replay property over the recorded
tape).  One tape cell is interpreted by the calculator action that wrote
it: a literal value is pushed, an operator name is applied via
`operator`, the `"="` marker runs `store`, and an `exch(A, B)` record
runs `exch` with the recorded (already resolved, hence non-negative)
indices. -/
def replayEntry (applyFn : List JSVal → String → Option (List JSVal))
    (e : TapeEntry) (t : CalcState) : Option CalcState :=
  match e with
  | .val v => some (pushFn t v)
  | .op name => operatorAct applyFn t name
  | .storeE => storeAct t
  | .exchE A B => exchAct t A B

/-- Modelled from the spec: replay a recorded tape in order against a
calculator state. -/
def replayTape (applyFn : List JSVal → String → Option (List JSVal)) :
    List TapeEntry → CalcState → Option CalcState
  | [], t => some t
  | e :: rest, t => (replayEntry applyFn e t).bind (replayTape applyFn rest)

/-- The replay property of the spec, as an invariant of a calculator
state: replaying the recorded tape from the initial state succeeds and
reproduces `stack` and `defs` exactly (the replayed state also has an
empty accumulator, which the induction maintains). -/
def ReplayInv (applyFn : List JSVal → String → Option (List JSVal))
    (s : CalcState) : Prop :=
  ∃ T, replayTape applyFn s.tape calcInit = some T ∧
    T.stack = s.stack ∧ T.defs = s.defs ∧ T.accum = .empty

/-! ## `fp.js`: the `undoable` history transform -/

/-- The wrapper state `\x7binner, history, undone\x7d` produced by
`undoable`. -/
structure Undoable (σ : Type) where
  inner : σ
  history : List σ
  undone : List σ
deriving DecidableEq, Repr

/-- Source `undoable(...).init`: the inner initial state with blank stacks. -/
def undoableInit {σ : Type} (init : σ) : Undoable σ := ⟨init, [], []⟩

/-- The `update` wrapper applied to every mutating method: run the inner
mutation, push the pre-mutation inner state onto `history`, clear
`undone`. -/
def undoableUpdate {σ : Type} (m : σ → σ) (s : Undoable σ) : Undoable σ :=
  ⟨m s.inner, s.history ++ [s.inner], []⟩

/-- Source `undo(state)`: pop the last history snapshot into `inner`, push the
current inner state onto `undone`; throws (`none`) on empty history. -/
def undoableUndo {σ : Type} (s : Undoable σ) : Option (Undoable σ) :=
  match s.history.getLast? with
  | none => none
  | some x => some ⟨x, s.history.dropLast, s.undone ++ [s.inner]⟩

/-- Source `redo(state)`: pop the last undone snapshot into `inner`, push the
current inner state onto `history`; throws (`none`) on empty `undone`. -/
def undoableRedo {σ : Type} (s : Undoable σ) : Option (Undoable σ) :=
  match s.undone.getLast? with
  | none => none
  | some x => some ⟨x, s.history ++ [s.inner], s.undone.dropLast⟩

/-! ## Units: `count`, `change` and `using`

From the dimensional-analysis module.  Conversion factors and amounts are
raw rational pairs; the counts produced by `count` are plain JS integers. -/

/-- An element of the heterogeneous list `change` returns: a whole-unit
count (a JS integer) or the leftover rational amount. -/
inductive CVal where
  | count (n : Nat)
  | amt (r : RatPair)
deriving DecidableEq, Repr

/-- Source `count(amount, coin, coins)`: repeatedly subtract `coin` while the
remaining amount is `gte` it.  The JS recursion is unbounded (it would
never return for a non-positive coin value); the model gives it fuel. -/
def countJS : Nat → RatPair → RatPair → Nat → Option (RatPair × Nat)
  | 0, _, _, _ => none
  | fuel + 1, amount, coin, coins =>
    if ratGte amount coin then countJS fuel (ratSub amount coin) coin (coins + 1)
    else some (amount, coins)

/-- Source `change(amount, coins)`: greedy change-making; counts whole units of
each coin in order, cascading remainders, and appends the final leftover
amount when it is non-zero. -/
def changeJS (fuel : Nat) : RatPair → List RatPair → Option (List CVal)
  | amount, [] => some (if amount.num ≠ 0 then [.amt amount] else [])
  | amount, coin :: rest =>
    (countJS fuel amount coin 0).bind fun r =>
      (changeJS fuel r.1 rest).map fun l => .count r.2 :: l

/-- Source `cmp_unit(a, b)`: compare two units by conversion factor; throws
(`none`) when either unit has no conversion. -/
def cmpUnit (conv : List (String × RatPair)) (a b : String) : Option Int :=
  match (conv.find? fun e => e.1 = a).map (·.2),
        (conv.find? fun e => e.1 = b).map (·.2) with
  | some ca, some cb =>
    some (if ratLt ca cb then -1 else if ratGt ca cb then 1 else 0)
  | _, _ => none

/-- Insert one element into a list sorted ascending by the comparator
(stops before the first element the new one compares below; the
conversion factors of the systems under verification are pairwise
distinct, so comparator ties do not arise). -/
def insertC (c : String → String → Option Int) (x : String) :
    List String → Option (List String)
  | [] => some [x]
  | y :: ys =>
    (c x y).bind fun r =>
      if r < 0 then some (x :: y :: ys)
      else (insertC c x ys).map fun l => y :: l

/-- Source `Array.prototype.sort(comparator)` as an insertion sort (ties do not
arise in the verified systems, so any correct sort agrees). -/
def sortC (c : String → String → Option Int) :
    List String → Option (List String)
  | [] => some []
  | x :: xs => (sortC c xs).bind fun l => insertC c x l

/-- Source `using(q, ...us)`: sort the requested units ascending by conversion
factor, reverse to descending, look up each factor, run the greedy
`change`, and — when `change` produced a leftover — append the synthetic
`frac` display unit holding `simplify(div(leftover, factor-of-smallest))`;
finally zip units with counts (`Object.fromEntries` of distinct keys is
the association list). -/
def usingJS (fuel : Nat) (conv : List (String × RatPair)) (q : RatPair)
    (us : List String) : Option (List (String × CVal)) :=
  (sortC (cmpUnit conv) us).bind fun sorted =>
    let usd := sorted.reverse
    (usd.mapM fun u => (conv.find? fun e => e.1 = u).map (·.2)).bind
      fun factors =>
    (changeJS fuel q factors).bind fun counted =>
      if usd.length < counted.length then
        match usd.getLast?, counted.getLast? with
        | some lastUnit, some (.amt frac) =>
          ((conv.find? fun e => e.1 = lastUnit).map (·.2)).bind fun factor =>
            (simplifyJS (ratDiv frac factor)).map fun r =>
              (usd ++ ["frac"]).zip (counted.dropLast ++ [.amt r])
        | _, _ => none
      else some (usd.zip counted)

/-- Source `rat.promote` applied to the literal factors of a system declaration
(`fromFloat` of a small integer always succeeds; the default is never
taken for the factors below). -/
def promoteNum (x : ℚ) : RatPair := (ratFromFloatQ x).getD ⟨0, 0⟩

/-- The conversion table of the `inches` length system: declared factors
first, the base unit (factor 1) appended last. -/
def inchesConv : List (String × RatPair) :=
  [("hd", promoteNum 4), ("ft", promoteNum 12), ("yd", promoteNum (3 * 12)),
   ("mi", promoteNum (5280 * 12)), ("in", promoteNum 1)]

/-! ## Small helpers for statements -/

/-- A float-tagged stack slot. -/
def fTag (x : ℚ) : JSVal := some ⟨"float", .num (.fin x)⟩

/-- A rat-tagged stack slot. -/
def rTag (r : RatPair) : JSVal := some ⟨"rat", .rp r⟩

/-- Concrete one-element-stack state used to witness the `exch` bounds
behaviour. -/
def exchWitnessState : CalcState := { calcInit with stack := [fTag 4] }

/-- A concrete action sequence (push, accumulator digit, enter, store)
used to witness the tape-replay property. -/
def replayDemoActs : List CalcAct :=
  [.push ⟨"float", .num (.fin 4)⟩, .digit 5, .enter, .store]

/-- The state reached by running `replayDemoActs` from the initial
state. -/
def replayDemoState : CalcState :=
  (runActs applyJS replayDemoActs calcInit).getD calcInit

/-! ## Helper lemmas -/

theorem gcdJS_eq_gcd : ∀ b a : Nat, gcdJS a b = Nat.gcd a b := by
  intro b
  induction b using Nat.strong_induction_on with
  | _ b ih =>
    intro a
    rw [gcdJS]
    split
    · next h => subst h; simp
    · next h =>
      rw [ih (a % b) (Nat.mod_lt a (Nat.pos_of_ne_zero h)) b,
        Nat.gcd_comm b (a % b), ← Nat.gcd_rec b a, Nat.gcd_comm b a]

theorem enterM_empty (s : CalcState) (h : isEmptyA s.accum = true) :
    enterM s = some s := by
  simp [enterM, h]

theorem replayTape_append
    (f : List JSVal → String → Option (List JSVal))
    (l1 l2 : List TapeEntry) (t : CalcState) :
    replayTape f (l1 ++ l2) t =
      (replayTape f l1 t).bind (replayTape f l2) := by
  induction l1 generalizing t with
  | nil => simp [replayTape]
  | cons e rest ih =>
    simp only [List.cons_append, replayTape]
    cases replayEntry f e t with
    | none => simp
    | some t1 => simp [ih]

/-! ## Claim C2: the undoable wrapper -/

/-- Claim C2: for the undoable-wrapped calculator, after any single
successful mutation `undo` restores the pre-mutation inner state, `redo`
after that `undo` restores the post-mutation wrapper state exactly,
`undo` on the fresh initial wrapper state raises, and `redo` with an
empty `undone` stack raises. -/
theorem claimC2_undo_redo (W : Undoable CalcState)
    (m : CalcState → CalcState) (i : CalcState) (hist : List CalcState) :
    (undoableUndo (undoableUpdate m W)).map (·.inner) = some W.inner ∧
    (undoableUndo (undoableUpdate m W)).bind undoableRedo =
      some (undoableUpdate m W) ∧
    undoableUndo (undoableInit i) = none ∧
    undoableRedo ⟨i, hist, []⟩ = none := by
  refine ⟨?_, ?_, ?_, ?_⟩
  · simp [undoableUndo, undoableUpdate]
  · simp [undoableUndo, undoableUpdate, undoableRedo]
  · simp [undoableUndo, undoableInit]
  · simp [undoableRedo]

/-! ## Claim C3: float round-trip through `fromFloat`/`toFloat` -/

/-- Claim C3 (code bug): the round-trip `toFloat(fromFloat(x))` is *not*
the identity on all finite doubles.  At `x = 2^40` (sign 0, biased
exponent field 1063, zero mantissa field) `frexp` yields exponent 40 and
mantissa 1, and `fromFloat` computes the numerator with the 32-bit JS
shift `1 << 40 = 256`, so the round-trip returns `256 ≠ 2^40`. -/
theorem claimC3_roundtrip_fails :
    Float64.val ⟨false, 1063, 0⟩ = 2 ^ 40 ∧
    fromFloatBits ⟨false, 1063, 0⟩ = some ⟨256, 1⟩ ∧
    (fromFloatBits ⟨false, 1063, 0⟩).bind toFloatJS = some (256 : ℚ) ∧
    (256 : ℚ) ≠ 2 ^ 40 := by
  have h40 : jsShl1 40 = 256 := by decide
  have hraw : frexpRaw ⟨false, 1063, 0⟩ = (40, 1) := by norm_num [frexpRaw]
  have hfx : frexpJS ⟨false, 1063, 0⟩ = some (40, 1) := by
    rw [frexpJS, hraw]
    norm_num [normalizeJS]
  have h2 : fromFloatBits ⟨false, 1063, 0⟩ = some ⟨256, 1⟩ := by
    rw [fromFloatBits, if_neg (by norm_num), hfx]
    norm_num [h40]
  refine ⟨by norm_num [Float64.val], h2, ?_, by norm_num⟩
  rw [h2]
  have hg : gcdJS 256 1 = 1 := by simp [gcdJS]
  simp [toFloatJS, simplifyJS, hg]

/-! ## Claim C4: `simplify` -/

/-- Claim C4 counterexample: `simplify` does not normalize the sign of a
negative denominator — `simplify` of the pair `(1, -2)` returns `(1, -2)`
itself, whose denominator is negative, contradicting the claim that the
resulting denominator is positive. -/
theorem claimC4_counterexample :
    simplifyJS ⟨1, -2⟩ = some ⟨1, -2⟩ ∧ ¬ (0 < (-2 : Int)) := by
  refine ⟨?_, by decide⟩
  simp [simplifyJS, gcdJS]

/-- Claim C4 (amended): for `denom ≠ 0`, `simplify` succeeds, preserves
the exact rational value, and produces coprime components; the *sign* of
the denominator is preserved as-is (a negative denominator stays
negative), not normalized to positive. -/
theorem claimC4_amended (r : RatPair) (h : r.denom ≠ 0) :
    (simplifyJS r).map ratQ = some (ratQ r) ∧
    (simplifyJS r).map (fun q => Int.gcd q.num q.denom) = some 1 ∧
    (simplifyJS r).map (fun q => q.denom.sign) = some r.denom.sign := by
  have hgpos : 0 < Int.gcd r.num r.denom := Int.gcd_pos_iff.mpr (Or.inr h)
  set g : ℤ := (Int.gcd r.num r.denom : ℤ) with hgdef
  have hg : (gcdJS r.num.natAbs r.denom.natAbs : ℤ) = g := by
    rw [gcdJS_eq_gcd]; rfl
  have hgz : g ≠ 0 := by positivity
  obtain ⟨n1, hn1⟩ : g ∣ r.num := Int.gcd_dvd_left
  obtain ⟨d1, hd1⟩ : g ∣ r.denom := Int.gcd_dvd_right
  have hsimp : simplifyJS r = some ⟨r.num / g, r.denom / g⟩ := by
    simp only [simplifyJS, hg]
    rw [if_neg hgz]
  have hqn : r.num / g = n1 := by rw [hn1, Int.mul_ediv_cancel_left n1 hgz]
  have hqd : r.denom / g = d1 := by rw [hd1, Int.mul_ediv_cancel_left d1 hgz]
  have hgq : (g : ℚ) ≠ 0 := by exact_mod_cast hgz
  refine ⟨?_, ?_, ?_⟩
  · rw [hsimp, Option.map_some', Option.some_inj, hqn, hqd, ratQ, ratQ, hn1, hd1]
    push_cast
    rw [mul_div_mul_left _ _ hgq]
  · rw [hsimp, Option.map_some', Option.some_inj]
    exact Int.gcd_div_gcd_div_gcd hgpos
  · rw [hsimp, Option.map_some', Option.some_inj, hqd, hd1, Int.sign_mul]
    have hs : g.sign = 1 := Int.sign_eq_one_of_pos (by rw [hgdef]; exact_mod_cast hgpos)
    rw [hs, one_mul]

/-- Witness for the amended claim C4 at the concrete input `2 / -4`. -/
theorem claimC4_witness :
    ((-4 : Int) ≠ 0) ∧
    ((simplifyJS ⟨2, -4⟩).map ratQ = some (ratQ ⟨2, -4⟩) ∧
     (simplifyJS ⟨2, -4⟩).map (fun q => Int.gcd q.num q.denom) = some 1 ∧
     (simplifyJS ⟨2, -4⟩).map (fun q => q.denom.sign) = some (-4 : Int).sign) :=
  ⟨by decide, claimC4_amended ⟨2, -4⟩ (by decide)⟩

/-! ## Claim C5: totality of the rational operations -/

/-- Claim C5 counterexample: `ceil` applied to the rational `1/1` (nonzero
denominator) throws — it is not total — and `inv` applied to the
zero-valued rational `0/1` does not signal a DivisionByZero error but
silently returns the pair `(1, 0)`. -/
theorem claimC5_counterexample :
    ratCeil ⟨1, 1⟩ = none ∧ ratInv ⟨0, 1⟩ = ⟨1, 0⟩ := by decide

/-- Claim C5 (amended): `add`, `sub`, `mul`, `div`, `inv`, `neg`, `abs`
are total functions on raw pairs (their Lean types are total); `floor` is
total on rationals with nonzero denominator; `div` and `inv` applied to a
zero-valued rational signal no error at all, returning a pair with zero
denominator; `ceil` is never total — every call throws a ReferenceError
(its parameter destructures a nonexistent `value` field and its body reads
an undeclared variable). -/
theorem claimC5_amended (a r : RatPair) (d : Int) (h : r.denom ≠ 0) :
    (ratFloor r).isSome ∧
    ratCeil a = none ∧
    ratInv ⟨0, d⟩ = ⟨d, 0⟩ ∧
    ratDiv a ⟨0, d⟩ = ⟨a.num * d, 0⟩ := by
  refine ⟨?_, rfl, rfl, ?_⟩
  · simp [ratFloor, h]
  · simp [ratDiv, ratMul, ratInv]

/-- Witness for the amended claim C5 at concrete inputs. -/
theorem claimC5_witness :
    ((2 : Int) ≠ 0) ∧
    ((ratFloor ⟨5, 2⟩).isSome ∧
     ratCeil ⟨3, 4⟩ = none ∧
     ratInv ⟨0, 7⟩ = ⟨7, 0⟩ ∧
     ratDiv ⟨3, 4⟩ ⟨0, 7⟩ = ⟨3 * 7, 0⟩) :=
  ⟨by decide, claimC5_amended ⟨3, 4⟩ ⟨5, 2⟩ 7 (by decide)⟩

/-! ## Claim C6: `enter` in fraction mode -/

/-- Claim C6 (code bug): in `showing == "frac"` mode, `enter` on a decimal
accumulator pushes the exact rational coercion of the float value, but
does *not* clear the accumulator: the cleared accumulator is passed to
`push` as a spurious extra argument and dropped, so the resulting state
keeps the old accumulator contents (and the `operator` action's
"Accumulator must be empty" assertion then fails). -/
theorem claimC6_frac_enter_keeps_accum :
    (enterM { calcInit with showing := "frac", accum := .dec 3 }).map
        (fun t => (t.stack, t.accum)) =
      some ([rTag ⟨3, 1⟩], AccumState.dec 3) ∧
    AccumState.dec 3 ≠ AccumState.empty := by
  exact ⟨rfl, by decide⟩

/-! ## Claim C7: `push` of a bound word -/

/-- Claim C7 (code bug): `push` of a word whose name is bound in `defs`
does not substitute the bound value.  The lookup `state.defs[value]` uses
the tagged value object itself as the property key (which JS stringifies
to `[object Object]`), not the word's name, so the binding for `LN2` —
present in the initial `defs` — is never found and the literal word is
pushed onto the stack. -/
theorem claimC7_word_not_resolved :
    (pushFn calcInit ⟨"word", .str "LN2"⟩).stack =
      [some ⟨"word", .str "LN2"⟩] ∧
    recGet calcInit.defs "LN2" = some (some ⟨"float", .num (.fin mathLN2)⟩) ∧
    some ⟨"word", .str "LN2"⟩ ≠ (some ⟨"float", .num (.fin mathLN2)⟩ : JSVal) := by
  refine ⟨rfl, rfl, ?_⟩
  intro hcontra
  simp at hcontra

/-! ## Claim C8: poly_binop dispatch and promotion -/

/-- Claim C8 counterexample: `approx` is registered through `poly_binop`,
but dispatch application on two floats does *not* yield a float result —
it throws, because the float implementation passed to `poly_binop` is
`rat.approx`, which destructures rational fields from its plain-number
arguments. -/
theorem claimC8_counterexample :
    applyJS [fTag 3, fTag 2] "approx" = none := rfl

/-- Claim C8 (amended): for the arithmetic `poly_binop` operators `add`,
`sub`, `mul`, `div`, dispatch application on two floats always yields a
float-tagged result computed by the float implementation — for `div`
with a zero divisor that float is the value `Infinity`/`-Infinity`/`NaN`,
not an error — and any argument combination involving a rat yields a rat
result computed by the rational implementation after promoting the float
operand with `rat.fromFloat`.
The fifth `poly_binop` operator, `approx`, has the same four-entry tag
structure but throws on every signature, because `rat.approx` expects a
rational first argument and a plain-integer second argument while
dispatch passes the tag-matched payloads.  In particular
`apply([float 3, rat 1/2], "add")` yields the stack `[rat 7/2]`. -/
theorem claimC8_amended (x y : ℚ) (r q : RatPair) :
    (applyJS [fTag x, fTag y] "add" = some [fTag (x + y)] ∧
     applyJS [fTag x, fTag y] "sub" = some [fTag (x - y)] ∧
     applyJS [fTag x, fTag y] "mul" = some [fTag (x * y)] ∧
     applyJS [fTag x, fTag y] "div" =
       some [some ⟨"float", PVal.num (if y = 0
         then (if x = 0 then JSNum.nan else if x < 0 then JSNum.negInf
               else JSNum.posInf)
         else JSNum.fin (x / y))⟩]) ∧
    (applyJS [fTag x, rTag r] "add" =
       ((ratFromFloatQ x).map fun fx => [rTag (ratAdd fx r)]) ∧
     applyJS [fTag x, rTag r] "sub" =
       ((ratFromFloatQ x).map fun fx => [rTag (ratSub fx r)]) ∧
     applyJS [fTag x, rTag r] "mul" =
       ((ratFromFloatQ x).map fun fx => [rTag (ratMul fx r)]) ∧
     applyJS [fTag x, rTag r] "div" =
       ((ratFromFloatQ x).map fun fx => [rTag (ratDiv fx r)])) ∧
    (applyJS [rTag r, fTag x] "add" =
       ((ratFromFloatQ x).map fun fx => [rTag (ratAdd r fx)]) ∧
     applyJS [rTag r, fTag x] "sub" =
       ((ratFromFloatQ x).map fun fx => [rTag (ratSub r fx)]) ∧
     applyJS [rTag r, fTag x] "mul" =
       ((ratFromFloatQ x).map fun fx => [rTag (ratMul r fx)]) ∧
     applyJS [rTag r, fTag x] "div" =
       ((ratFromFloatQ x).map fun fx => [rTag (ratDiv r fx)])) ∧
    (applyJS [rTag r, rTag q] "add" = some [rTag (ratAdd r q)] ∧
     applyJS [rTag r, rTag q] "sub" = some [rTag (ratSub r q)] ∧
     applyJS [rTag r, rTag q] "mul" = some [rTag (ratMul r q)] ∧
     applyJS [rTag r, rTag q] "div" = some [rTag (ratDiv r q)]) ∧
    (applyJS [fTag x, fTag y] "approx" = none ∧
     applyJS [fTag x, rTag r] "approx" = none ∧
     applyJS [rTag r, fTag x] "approx" = none ∧
     applyJS [rTag r, rTag q] "approx" = none) ∧
    applyJS [fTag 3, rTag ⟨1, 2⟩] "add" = some [rTag ⟨7, 2⟩] := by
  refine ⟨⟨rfl, rfl, rfl, rfl⟩, ⟨?_, ?_, ?_, ?_⟩, ⟨?_, ?_, ?_, ?_⟩,
    ⟨rfl, rfl, rfl, rfl⟩, ⟨rfl, ?_, ?_, rfl⟩, rfl⟩
  · have hred : applyJS [fTag x, rTag r] "add" =
        ((ratFromFloatQ x).bind fun fx => (some (ratAdd fx r)).map PVal.rp).map
          (fun v => ([some ⟨"rat", v⟩] : List JSVal)) := rfl
    rw [hred]
    cases hfx : ratFromFloatQ x <;> simp [rTag]
  · have hred : applyJS [fTag x, rTag r] "sub" =
        ((ratFromFloatQ x).bind fun fx => (some (ratSub fx r)).map PVal.rp).map
          (fun v => ([some ⟨"rat", v⟩] : List JSVal)) := rfl
    rw [hred]
    cases hfx : ratFromFloatQ x <;> simp [rTag]
  · have hred : applyJS [fTag x, rTag r] "mul" =
        ((ratFromFloatQ x).bind fun fx => (some (ratMul fx r)).map PVal.rp).map
          (fun v => ([some ⟨"rat", v⟩] : List JSVal)) := rfl
    rw [hred]
    cases hfx : ratFromFloatQ x <;> simp [rTag]
  · have hred : applyJS [fTag x, rTag r] "div" =
        ((ratFromFloatQ x).bind fun fx => (some (ratDiv fx r)).map PVal.rp).map
          (fun v => ([some ⟨"rat", v⟩] : List JSVal)) := rfl
    rw [hred]
    cases hfx : ratFromFloatQ x <;> simp [rTag]
  · have hred : applyJS [rTag r, fTag x] "add" =
        ((ratFromFloatQ x).bind fun fx => (some (ratAdd r fx)).map PVal.rp).map
          (fun v => ([some ⟨"rat", v⟩] : List JSVal)) := rfl
    rw [hred]
    cases hfx : ratFromFloatQ x <;> simp [rTag]
  · have hred : applyJS [rTag r, fTag x] "sub" =
        ((ratFromFloatQ x).bind fun fx => (some (ratSub r fx)).map PVal.rp).map
          (fun v => ([some ⟨"rat", v⟩] : List JSVal)) := rfl
    rw [hred]
    cases hfx : ratFromFloatQ x <;> simp [rTag]
  · have hred : applyJS [rTag r, fTag x] "mul" =
        ((ratFromFloatQ x).bind fun fx => (some (ratMul r fx)).map PVal.rp).map
          (fun v => ([some ⟨"rat", v⟩] : List JSVal)) := rfl
    rw [hred]
    cases hfx : ratFromFloatQ x <;> simp [rTag]
  · have hred : applyJS [rTag r, fTag x] "div" =
        ((ratFromFloatQ x).bind fun fx => (some (ratDiv r fx)).map PVal.rp).map
          (fun v => ([some ⟨"rat", v⟩] : List JSVal)) := rfl
    rw [hred]
    cases hfx : ratFromFloatQ x <;> simp [rTag]
  · have hred : applyJS [fTag x, rTag r] "approx" =
        ((ratFromFloatQ x).bind fun fx => (approxImpl fx r).map PVal.rp).map
          (fun v => ([some ⟨"rat", v⟩] : List JSVal)) := rfl
    rw [hred]
    cases hfx : ratFromFloatQ x <;> simp [approxImpl]
  · have hred : applyJS [rTag r, fTag x] "approx" =
        ((ratFromFloatQ x).bind fun fx => (approxImpl r fx).map PVal.rp).map
          (fun v => ([some ⟨"rat", v⟩] : List JSVal)) := rfl
    rw [hred]
    cases hfx : ratFromFloatQ x <;> simp [approxImpl]

/-! ## Claim C9: units and greedy change-making -/

theorem ratGte_iff (a b : RatPair) (ha : 0 < a.denom) (hb : 0 < b.denom) :
    ratGte a b = true ↔ ratQ b ≤ ratQ a := by
  have ha2 : (0 : ℚ) < (a.denom : ℚ) := by exact_mod_cast ha
  have hb2 : (0 : ℚ) < (b.denom : ℚ) := by exact_mod_cast hb
  rw [ratGte, decide_eq_true_eq, ratQ, ratQ, div_le_div_iff₀ hb2 ha2,
    ge_iff_le]
  constructor <;> intro h <;> exact_mod_cast h

theorem ratQ_ratSub (a b : RatPair) (ha : a.denom ≠ 0) (hb : b.denom ≠ 0) :
    ratQ (ratSub a b) = ratQ a - ratQ b := by
  have ha2 : ((a.denom : ℚ)) ≠ 0 := by exact_mod_cast ha
  have hb2 : ((b.denom : ℚ)) ≠ 0 := by exact_mod_cast hb
  rw [ratSub, ratQ, ratQ, ratQ]
  push_cast
  field_simp
  ring

theorem countJS_spec (coin : RatPair) (hc : 0 < coin.denom)
    (hcq : 0 < ratQ coin) :
    ∀ (fuel : Nat) (amount : RatPair) (c : Nat), 0 < amount.denom →
      (⌊ratQ amount / ratQ coin⌋).toNat < fuel →
      (countJS fuel amount coin c).map (fun p => (ratQ p.1, p.2)) =
        some (ratQ amount - ((⌊ratQ amount / ratQ coin⌋).toNat : ℚ) * ratQ coin,
              c + (⌊ratQ amount / ratQ coin⌋).toNat) := by
  intro fuel
  induction fuel with
  | zero => intro amount c _ hfuel; omega
  | succ fuel ih =>
    intro amount c ha hfuel
    have hcq0 : ratQ coin ≠ 0 := ne_of_gt hcq
    rw [countJS]
    by_cases hge : ratGte amount coin = true
    · rw [if_pos hge]
      have hle : ratQ coin ≤ ratQ amount := (ratGte_iff amount coin ha hc).mp hge
      have hone : (1 : ℚ) ≤ ratQ amount / ratQ coin :=
        (one_le_div hcq).mpr hle
      have hfl1 : 1 ≤ ⌊ratQ amount / ratQ coin⌋ := by
        exact_mod_cast Int.le_floor.mpr (by exact_mod_cast hone)
      have hsubdenom : 0 < (ratSub amount coin).denom := by
        rw [ratSub]
        exact mul_pos ha hc
      have hsubq : ratQ (ratSub amount coin) = ratQ amount - ratQ coin :=
        ratQ_ratSub amount coin (ne_of_gt ha) (ne_of_gt hc)
      have hflsub : ⌊ratQ (ratSub amount coin) / ratQ coin⌋ =
          ⌊ratQ amount / ratQ coin⌋ - 1 := by
        rw [hsubq, sub_div, div_self hcq0, Int.floor_sub_one]
      have hrec := ih (ratSub amount coin) (c + 1) hsubdenom (by rw [hflsub]; omega)
      rw [hrec, hflsub, Option.some_inj, Prod.mk.injEq]
      have hn1 : 1 ≤ (⌊ratQ amount / ratQ coin⌋).toNat := by omega
      have hcast : (((⌊ratQ amount / ratQ coin⌋ - 1).toNat : ℚ)) =
          ((⌊ratQ amount / ratQ coin⌋).toNat : ℚ) - 1 := by
        have : (⌊ratQ amount / ratQ coin⌋ - 1).toNat =
            (⌊ratQ amount / ratQ coin⌋).toNat - 1 := by omega
        rw [this]
        push_cast [hn1]
        ring
      constructor
      · rw [hsubq, hcast]
        ring_nf
      · omega
    · rw [if_neg hge]
      have hlt : ratQ amount < ratQ coin := by
        by_contra hcon
        exact hge ((ratGte_iff amount coin ha hc).mpr (le_of_not_lt hcon))
      have hfl0 : ⌊ratQ amount / ratQ coin⌋ < 1 := by
        rw [Int.floor_lt]
        push_cast
        exact (div_lt_one hcq).mpr hlt
      have : (⌊ratQ amount / ratQ coin⌋).toNat = 0 := by omega
      rw [this]
      simp

/-- Claim C9: the `using` algorithm sorts the requested units by
descending conversion factor and runs the greedy change-making `count`
pass — `count` yields exactly the number of whole coins that fit
(`⌊amount/coin⌋`) and the cascaded remainder, for any positive coin value
and enough fuel; and in the inch system, rendering the quantity 18
(inches) with units `["ft", "in"]` yields `ft = 1`, `in = 6`. -/
theorem claimC9_using_greedy :
    (∀ (fuel : Nat) (amount coin : RatPair) (c : Nat),
      0 < amount.denom → 0 < coin.denom → 0 < ratQ coin →
      (⌊ratQ amount / ratQ coin⌋).toNat < fuel →
      (countJS fuel amount coin c).map (fun p => (ratQ p.1, p.2)) =
        some (ratQ amount - ((⌊ratQ amount / ratQ coin⌋).toNat : ℚ) * ratQ coin,
              c + (⌊ratQ amount / ratQ coin⌋).toNat)) ∧
    usingJS 100 inchesConv ⟨18, 1⟩ ["ft", "in"] =
      some [("ft", CVal.count 1), ("in", CVal.count 6)] := by
  constructor
  · intro fuel amount coin c ha hc hcq hfuel
    exact countJS_spec coin hc hcq fuel amount c ha hfuel
  · rfl

/-- Witness for claim C9's `count` characterization at the concrete input
`count(5/1, 2/1, 0)` with fuel 5: two whole coins fit, remainder 1. -/
theorem claimC9_witness :
    (0 < (⟨5, 1⟩ : RatPair).denom ∧ 0 < (⟨2, 1⟩ : RatPair).denom ∧
     0 < ratQ ⟨2, 1⟩ ∧
     (⌊ratQ ⟨5, 1⟩ / ratQ ⟨2, 1⟩⌋).toNat < 5) ∧
    (countJS 5 ⟨5, 1⟩ ⟨2, 1⟩ 0).map (fun p => (ratQ p.1, p.2)) =
      some (ratQ ⟨5, 1⟩ - ((⌊ratQ ⟨5, 1⟩ / ratQ ⟨2, 1⟩⌋).toNat : ℚ) * ratQ ⟨2, 1⟩,
            0 + (⌊ratQ ⟨5, 1⟩ / ratQ ⟨2, 1⟩⌋).toNat) :=
  ⟨⟨by decide, by decide, by norm_num [ratQ], by norm_num [ratQ]⟩,
   claimC9_using_greedy.1 5 ⟨5, 1⟩ ⟨2, 1⟩ 0 (by decide) (by decide)
     (by norm_num [ratQ]) (by norm_num [ratQ])⟩

/-! ## Claim C10: `exch` at an index equal to the stack length -/

/-- Claim C10: on a state with empty accumulator and a stack of length
`n ≥ 1`, `exch` called with one index resolving to exactly `n` (and the
other in range) raises neither overflow nor underflow — the bounds check
only rejects indices strictly greater than the length — and the resulting
stack has length `n + 1` and contains an `undefined` slot, so `exch` does
not preserve the all-slots-are-tagged-values invariant. -/
theorem claimC10_exch_at_length (s : CalcState) (b : Int)
    (hacc : isEmptyA s.accum = true) (hn : 1 ≤ s.stack.length)
    (hb0 : 0 ≤ resolveIdx s.stack.length b)
    (hbn : resolveIdx s.stack.length b ≤ (s.stack.length : Int)) :
    (exchAct s (s.stack.length : Int) b).map (fun t => t.stack.length) =
      some (s.stack.length + 1) ∧
    (exchAct s (s.stack.length : Int) b).map
        (fun t => decide (none ∈ t.stack)) = some true := by
  have he : enterM s = some s := enterM_empty s hacc
  have hA : resolveIdx s.stack.length (s.stack.length : Int) =
      (s.stack.length : Int) := by
    simp [resolveIdx]
  set n := s.stack.length with hndef
  set B := resolveIdx n b with hBdef
  have hmax : ¬ (max (n : Int) B > (n : Int)) := by omega
  have hmin : ¬ (min (n : Int) B < 0) := by omega
  have hvalA : jsGetElem s.stack (n : Int) = none := by
    simp [jsGetElem, hndef]
  have hst1 : jsSetElem s.stack (n : Int) (jsGetElem s.stack B) =
      s.stack ++ [jsGetElem s.stack B] := by
    simp [jsSetElem, hndef]
  have hBlt : B.toNat < (s.stack ++ [jsGetElem s.stack B]).length := by
    simp [hndef]
    omega
  have hex : exchAct s (n : Int) b =
      some { s with
        stack := (s.stack ++ [jsGetElem s.stack B]).set B.toNat none,
        tape := s.tape ++ [.exchE (n : Int) B] } := by
    rw [exchAct, he]
    simp only [Option.some_bind, ← hndef, ← hBdef, hA]
    rw [if_neg hmax, if_neg hmin, hvalA, hst1]
    have hset2 : jsSetElem (s.stack ++ [jsGetElem s.stack B]) B none =
        (s.stack ++ [jsGetElem s.stack B]).set B.toNat none := by
      rw [jsSetElem, if_neg (by omega), if_pos hBlt]
    rw [hset2]
  rw [hex]
  constructor
  · simp [hndef]
  · simp only [Option.map_some', Option.some_inj, decide_eq_true_eq]
    have hgot : ((s.stack ++ [jsGetElem s.stack B]).set B.toNat none)[B.toNat]? =
        some none := by
      rw [List.getElem?_set_self hBlt]
    exact List.getElem?_mem hgot

/-- Witness for claim C10 at the one-element stack `[float 4]` with the
in-range index 0 and the boundary index 1. -/
theorem claimC10_witness :
    (isEmptyA exchWitnessState.accum = true ∧
     1 ≤ exchWitnessState.stack.length ∧
     0 ≤ resolveIdx exchWitnessState.stack.length 0 ∧
     resolveIdx exchWitnessState.stack.length 0 ≤
       (exchWitnessState.stack.length : Int)) ∧
    ((exchAct exchWitnessState (exchWitnessState.stack.length : Int) 0).map
        (fun t => t.stack.length) = some (exchWitnessState.stack.length + 1) ∧
     (exchAct exchWitnessState (exchWitnessState.stack.length : Int) 0).map
        (fun t => decide (none ∈ t.stack)) = some true) :=
  ⟨⟨by decide, by decide, by decide, by decide⟩,
   claimC10_exch_at_length exchWitnessState 0 (by decide) (by decide)
     (by decide) (by decide)⟩

/-! ## Claim C1: replaying the tape -/

theorem opt_eq_some_getD {α : Type} (o : Option α) (d : α)
    (h : o.isSome = true) : o = some (o.getD d) := by
  cases o with
  | none => simp at h
  | some x => rfl

theorem replayTape_single (f : List JSVal → String → Option (List JSVal))
    (e : TapeEntry) (t : CalcState) :
    replayTape f [e] t = replayEntry f e t := by
  rw [replayTape]
  cases replayEntry f e t <;> rfl

theorem inv_congr (f : List JSVal → String → Option (List JSVal))
    (s u : CalcState) (h : ReplayInv f s) (ht : u.tape = s.tape)
    (hs : u.stack = s.stack) (hd : u.defs = s.defs) : ReplayInv f u := by
  obtain ⟨T, h1, h2, h3, h4⟩ := h
  exact ⟨T, by rw [ht]; exact h1, by rw [hs]; exact h2, by rw [hd]; exact h3, h4⟩

theorem inv_push (f : List JSVal → String → Option (List JSVal))
    (s : CalcState) (v : TVal) (h : ReplayInv f s) :
    ReplayInv f (pushFn s v) := by
  obtain ⟨T, h1, h2, h3, h4⟩ := h
  refine ⟨pushFn T v, ?_, ?_, ?_, ?_⟩
  · have htl : (pushFn s v).tape = s.tape ++ [TapeEntry.val v] := rfl
    rw [htl, replayTape_append, h1]
    show replayTape f [TapeEntry.val v] T = some (pushFn T v)
    rw [replayTape_single]
    rfl
  · show T.stack ++ [pushNumeric T.defs v] = s.stack ++ [pushNumeric s.defs v]
    rw [h2, h3]
  · exact h3
  · exact h4

theorem inv_enterM (f : List JSVal → String → Option (List JSVal))
    (s t : CalcState) (h : ReplayInv f s) (he : enterM s = some t) :
    ReplayInv f t := by
  by_cases hE : isEmptyA s.accum = true
  · rw [enterM_empty s hE] at he
    cases he
    exact h
  · have hE2 : isEmptyA s.accum = false := by
      cases hcase : isEmptyA s.accum
      · rfl
      · exact absurd hcase hE
    rw [enterM] at he
    rw [hE2] at he
    simp only [Bool.false_eq_true, if_false] at he
    cases hv : accumValue s.accum with
    | none => rw [hv] at he; simp at he
    | some v =>
      rw [hv] at he
      simp only [Option.some_bind] at he
      by_cases hfrac : s.showing = "frac" ∧ v.tag = "float"
      · rw [if_pos hfrac] at he
        revert he
        cases hval : v.value with
        | num jn =>
          intro he
          have he2 : (jsFromFloat jn).map
              (fun rp => pushFn s ⟨"rat", PVal.rp rp⟩) = some t := he
          cases hr : jsFromFloat jn with
          | none => rw [hr] at he2; simp at he2
          | some rp =>
            rw [hr] at he2
            simp only [Option.map_some', Option.some_inj] at he2
            subst he2
            exact inv_push f s _ h
        | rp r => intro he; exact absurd he (by simp)
        | str w => intro he; exact absurd he (by simp)
      · rw [if_neg hfrac] at he
        simp only [Option.some_inj] at he
        subst he
        exact inv_congr f (pushFn s v) _ (inv_push f s v h) rfl rfl rfl

theorem inv_oper (f : List JSVal → String → Option (List JSVal))
    (s t : CalcState) (name : String) (h : ReplayInv f s)
    (ho : operatorAct f s name = some t) : ReplayInv f t := by
  rw [operatorAct] at ho
  cases he : enterM s with
  | none => rw [he] at ho; simp at ho
  | some t1 =>
    rw [he] at ho
    simp only [Option.some_bind] at ho
    by_cases hE : isEmptyA t1.accum = true
    · rw [if_pos hE] at ho
      cases ha : f t1.stack name with
      | none => rw [ha] at ho; simp at ho
      | some st =>
        rw [ha] at ho
        simp only [Option.map_some', Option.some_inj] at ho
        subst ho
        obtain ⟨T1, g1, g2, g3, g4⟩ := inv_enterM f s t1 h he
        refine ⟨{ T1 with stack := st, tape := T1.tape ++ [.op name] },
          ?_, rfl, g3, g4⟩
        show replayTape f (t1.tape ++ [.op name]) calcInit = _
        rw [replayTape_append, g1]
        show replayTape f [.op name] T1 = _
        rw [replayTape_single]
        show operatorAct f T1 name = _
        have hT1e : isEmptyA T1.accum = true := by rw [g4]; rfl
        rw [operatorAct, enterM_empty T1 hT1e]
        simp only [Option.some_bind]
        rw [if_pos hT1e, g2, ha]
        rfl
    · rw [if_neg hE] at ho
      simp at ho

theorem inv_exch (f : List JSVal → String → Option (List JSVal))
    (s t : CalcState) (a b : Int) (h : ReplayInv f s)
    (hx : exchAct s a b = some t) : ReplayInv f t := by
  rw [exchAct] at hx
  cases he : enterM s with
  | none => rw [he] at hx; simp at hx
  | some t1 =>
    rw [he] at hx
    simp only [Option.some_bind] at hx
    set A := resolveIdx t1.stack.length a with hAdef
    set B := resolveIdx t1.stack.length b with hBdef
    by_cases hmax : max A B > (t1.stack.length : Int)
    · rw [if_pos hmax] at hx; simp at hx
    · rw [if_neg hmax] at hx
      by_cases hmin : min A B < 0
      · rw [if_pos hmin] at hx; simp at hx
      · rw [if_neg hmin] at hx
        simp only [Option.some_inj] at hx
        subst hx
        obtain ⟨T1, g1, g2, g3, g4⟩ := inv_enterM f s t1 h he
        have hA0 : 0 ≤ A := by omega
        have hB0 : 0 ≤ B := by omega
        refine ⟨{ T1 with
          stack := jsSetElem (jsSetElem T1.stack A (jsGetElem T1.stack B)) B
            (jsGetElem T1.stack A),
          tape := T1.tape ++ [.exchE A B] }, ?_, by rw [g2], g3, g4⟩
        show replayTape f (t1.tape ++ [.exchE A B]) calcInit = _
        rw [replayTape_append, g1]
        show replayTape f [.exchE A B] T1 = _
        rw [replayTape_single]
        show exchAct T1 A B = _
        have hT1e : isEmptyA T1.accum = true := by rw [g4]; rfl
        rw [exchAct, enterM_empty T1 hT1e]
        simp only [Option.some_bind]
        have hrA : resolveIdx T1.stack.length A = A := by
          rw [resolveIdx, if_neg (by omega)]
        have hrB : resolveIdx T1.stack.length B = B := by
          rw [resolveIdx, if_neg (by omega)]
        rw [hrA, hrB, g2]
        rw [if_neg hmax, if_neg hmin]

theorem inv_store (f : List JSVal → String → Option (List JSVal))
    (s t : CalcState) (h : ReplayInv f s) (hx : storeAct s = some t) :
    ReplayInv f t := by
  rw [storeAct] at hx
  cases he : enterM s with
  | none => rw [he] at hx; simp at hx
  | some t1 =>
    rw [he] at hx
    simp only [Option.map_some', Option.some_inj] at hx
    obtain ⟨T1, g1, g2, g3, g4⟩ := inv_enterM f s t1 h he
    have hT1e : isEmptyA T1.accum = true := by rw [g4]; rfl
    by_cases hlen : 2 ≤ t1.stack.length
    · rw [if_pos hlen] at hx
      subst hx
      refine ⟨{ T1 with
        stack := jsSliceTake T1.stack ((T1.stack.length : Int) - 2),
        defs := recSet T1.defs
          (jsToStr (jsGetElem T1.stack ((T1.stack.length : Int) - 1)))
          (jsGetElem T1.stack ((T1.stack.length : Int) - 2)),
        tape := T1.tape ++ [.storeE] }, ?_, by rw [g2], by rw [g2, g3], g4⟩
      show replayTape f (t1.tape ++ [.storeE]) calcInit = _
      rw [replayTape_append, g1]
      show replayTape f [.storeE] T1 = _
      rw [replayTape_single]
      show storeAct T1 = _
      rw [storeAct, enterM_empty T1 hT1e]
      simp only [Option.map_some', Option.some_inj]
      rw [if_pos (by rw [g2]; exact hlen)]
    · rw [if_neg hlen] at hx
      subst hx
      exact ⟨T1, g1, g2, g3, g4⟩

theorem inv_step (f : List JSVal → String → Option (List JSVal))
    (a : CalcAct) (s t : CalcState) (h : ReplayInv f s)
    (hstep : runAct f a s = some t) : ReplayInv f t := by
  cases a with
  | push v =>
    simp only [runAct, Option.some_inj] at hstep
    subst hstep
    exact inv_push f s v h
  | enter => exact inv_enterM f s t h hstep
  | oper name => exact inv_oper f s t name h hstep
  | exch a b => exact inv_exch f s t a b h hstep
  | store => exact inv_store f s t h hstep
  | setShow m =>
    simp only [runAct, Option.some_inj] at hstep
    subst hstep
    exact inv_congr f s _ h rfl rfl rfl
  | digit d =>
    simp only [runAct, Option.some_inj] at hstep
    subst hstep
    exact inv_congr f s _ h rfl rfl rfl
  | decimal =>
    simp only [runAct, hoistAccum] at hstep
    cases hv : accumDecimal s.accum with
    | none => rw [hv] at hstep; simp at hstep
    | some a2 =>
      rw [hv] at hstep
      simp only [Option.map_some', Option.some_inj] at hstep
      subst hstep
      exact inv_congr f s _ h rfl rfl rfl
  | letterA l =>
    simp only [runAct, hoistAccum] at hstep
    cases hv : accumLetter s.accum l with
    | none => rw [hv] at hstep; simp at hstep
    | some a2 =>
      rw [hv] at hstep
      simp only [Option.map_some', Option.some_inj] at hstep
      subst hstep
      exact inv_congr f s _ h rfl rfl rfl
  | numTok =>
    simp only [runAct, hoistAccum] at hstep
    cases hv : accumNum s.accum with
    | none => rw [hv] at hstep; simp at hstep
    | some a2 =>
      rw [hv] at hstep
      simp only [Option.map_some', Option.some_inj] at hstep
      subst hstep
      exact inv_congr f s _ h rfl rfl rfl
  | denomTok =>
    simp only [runAct, hoistAccum] at hstep
    cases hv : accumDenom s.accum with
    | none => rw [hv] at hstep; simp at hstep
    | some a2 =>
      rw [hv] at hstep
      simp only [Option.map_some', Option.some_inj] at hstep
      subst hstep
      exact inv_congr f s _ h rfl rfl rfl
  | clearTok =>
    simp only [runAct, Option.some_inj] at hstep
    subst hstep
    exact inv_congr f s _ h rfl rfl rfl

/-- Claim C1: for every calculator state reachable from the initial state
by a sequence of successful mutating actions (push, enter, operator,
exch, store — together with the accumulator token actions and the mode
switch), replaying the recorded tape entries in order against the initial
calculator state succeeds and reproduces `stack` and `defs` exactly.  The
statement is parametric in the operator-dispatch function, so it holds
for any of the evolutionary dispatch tables, in particular `applyJS`. -/
theorem claimC1_replay (f : List JSVal → String → Option (List JSVal))
    (acts : List CalcAct) (S : CalcState)
    (h : runActs f acts calcInit = some S) :
    (replayTape f S.tape calcInit).map (fun T => (T.stack, T.defs)) =
      some (S.stack, S.defs) := by
  have main : ∀ (l : List CalcAct) (s u : CalcState), ReplayInv f s →
      runActs f l s = some u → ReplayInv f u := by
    intro l
    induction l with
    | nil =>
      intro s u h1 h2
      rw [runActs] at h2
      simp only [Option.some_inj] at h2
      subst h2
      exact h1
    | cons a rest ih =>
      intro s u h1 h2
      rw [runActs] at h2
      cases hstep : runAct f a s with
      | none => rw [hstep] at h2; simp at h2
      | some s1 =>
        rw [hstep] at h2
        simp only [Option.some_bind] at h2
        exact ih s1 u (inv_step f a s s1 h1 hstep) h2
  have hinv0 : ReplayInv f calcInit := ⟨calcInit, rfl, rfl, rfl, rfl⟩
  obtain ⟨T, g1, g2, g3, _⟩ := main acts calcInit S hinv0 h
  rw [g1, Option.map_some', g2, g3]

/-- Witness for claim C1: the concrete action sequence
`[push (float 4), digit 5, enter, store]` reaches a state whose tape
replays to the same stack and defs. -/
theorem claimC1_witness :
    runActs applyJS replayDemoActs calcInit = some replayDemoState ∧
    (replayTape applyJS replayDemoState.tape calcInit).map
        (fun T => (T.stack, T.defs)) =
      some (replayDemoState.stack, replayDemoState.defs) := by
  have hsome : (runActs applyJS replayDemoActs calcInit).isSome = true := rfl
  have hrun : runActs applyJS replayDemoActs calcInit =
      some replayDemoState :=
    opt_eq_some_getD (runActs applyJS replayDemoActs calcInit) calcInit hsome
  exact ⟨hrun, claimC1_replay applyJS replayDemoActs replayDemoState hrun⟩

end Rpncalc
